import Mathlib

/-!
Verification of the layer-stack neural-network core of `rusty-machine`
(`src/learning/nnet.rs`): parameter-buffer addressing, forward propagation,
and the back-propagation engine (`BaseNeuralNet`), together with the
`Criterion` abstraction.

The Rust code is shallowly embedded: `f64` values are modelled as `Rat`
(every claim under consideration is structural — offsets, lengths, call
shapes — and does not depend on floating-point rounding), matrices are
row-major packed lists with explicit shape, and the unchecked
`MatrixSlice::from_raw_parts` views into the flat weight buffer are
modelled by `sliceAt`, which reads the addressed sub-range of the list.
Layer implementations and the linalg crate live outside the covered
source file; they enter only through the six-operation `NetLayer`
contract, exactly as the engine consumes them.
-/

namespace NNet

/-- A dense row-major matrix: `data` lists the entries row by row
(`rusty_machine::linalg::Matrix<f64>`, fully packed). -/
structure Mat where
  rows : Nat
  cols : Nat
  data : List Rat
deriving DecidableEq

/-- A non-owning 2-D view of a contiguous buffer range
(`MatrixSlice<f64>` with stride = cols, i.e. fully packed: the `data`
field lists the viewed entries row by row). -/
structure MatrixSlice where
  rows : Nat
  cols : Nat
  data : List Rat
deriving DecidableEq

/-- The layer capability consumed by the engine
(`learning::toolkit::net_layer::NetLayer`, a trait object external to
`nnet.rs`): parameter count, parameter shape, default parameters and the
forward/backward transforms. -/
structure NetLayer where
  num_params : Nat
  param_shape : Nat × Nat
  default_params : List Rat
  forward : Mat → MatrixSlice → Mat
  back_params : Mat → Mat → MatrixSlice → Mat
  back_input : Mat → Mat → MatrixSlice → Mat

/-- `learning::toolkit::regularization::Regularization<f64>`
(external to `nnet.rs`): no regularization, L1 or L2 with a factor. -/
inductive Regularization where
  | none : Regularization
  | l1 : Rat → Regularization
  | l2 : Rat → Regularization
deriving DecidableEq

/-- A `Criterion`: one activation function, its derivative, one cost
function with its gradient, and a regularization policy.  The Rust trait
fixes the four functions through associated types; the embedding carries
them as fields, selected at construction time. -/
structure Criterion where
  act : Rat → Rat
  act_grad : Rat → Rat
  costFn : Mat → Mat → Rat
  cost_gradFn : Mat → Mat → Mat
  regularization : Regularization

/-- `Criterion::activate`: element-wise activation application. -/
def Criterion.activate (c : Criterion) (m : Mat) : Mat :=
  ⟨m.rows, m.cols, m.data.map c.act⟩

/-- `Criterion::grad_activ`: element-wise activation derivative. -/
def Criterion.grad_activ (c : Criterion) (m : Mat) : Mat :=
  ⟨m.rows, m.cols, m.data.map c.act_grad⟩

/-- `Criterion::is_regularized`. -/
def Criterion.is_regularized (c : Criterion) : Bool :=
  match c.regularization with
  | Regularization.none => false
  | _ => true

/-- `BaseNeuralNet`: the layer stack, the single flat parameter vector,
and the criterion. -/
structure BaseNeuralNet where
  layers : List NetLayer
  weights : List Rat
  criterion : Criterion

/-- Sum of the parameter counts of a stack of layers (the running
`full_size` computed in `get_layer_weights`, and the value of `index`
after the forward loop of `compute_grad`). -/
def totalParams (ls : List NetLayer) : Nat :=
  (ls.map NetLayer.num_params).sum

/-- Start offset of layer `idx`'s slice in the flat buffer:
the sum of the preceding layers' parameter counts (`start` in
`get_layer_weights`). -/
def paramOffset (ls : List NetLayer) (idx : Nat) : Nat :=
  totalParams (ls.take idx)

/-- The 2-D view of the buffer range starting at `start` with the given
(rows, cols) shape — the model of
`MatrixSlice::from_raw_parts(weights.as_ptr().offset(start), rows, cols, cols)`.
In-bounds reads agree with the Rust view; an out-of-range read (undefined
behaviour in Rust) simply yields a shorter `data` list here. -/
def sliceAt (weights : List Rat) (start : Nat) (shape : Nat × Nat) : MatrixSlice :=
  ⟨shape.1, shape.2, (weights.drop start).take (shape.1 * shape.2)⟩

/-- `BaseNeuralNet::get_layer_weights`: the checked per-layer view.  The
two `debug_assert` checks of the source (layer index in range, then
buffer length equal to the total parameter count) are modelled as
explicit guards; a failed assertion becomes an `error` value. -/
def get_layer_weights (net : BaseNeuralNet) (weights : List Rat) (idx : Nat) :
    Except String MatrixSlice :=
  if h : idx < net.layers.length then
    if totalParams net.layers = weights.length then
      Except.ok (sliceAt weights (paramOffset net.layers idx)
        ((net.layers.get ⟨idx, h⟩).param_shape))
    else
      Except.error "weights length does not match total parameter count"
  else
    Except.error "layer index out of range"

/-- Modelled from the spec: the matrix view type of the (out-of-scope)
linalg collaborator supports cheap bounds-checked re-slicing by row
range; views are fully packed (stride = cols).  The model extracts the
packed contents of the sub-view; it is exact for the full-width row
ranges used by `get_non_bias_weights` (`start = [1, 0]`, same column
count).  A bounds violation (an assertion failure in the collaborator,
or the `usize` underflow of `rows - 1` on a zero-row view) becomes an
`error` value. -/
def MatrixSlice.reslice (s : MatrixSlice) (start : Nat × Nat) (rows cols : Nat) :
    Except String MatrixSlice :=
  if start.1 + rows ≤ s.rows ∧ start.2 + cols ≤ s.cols then
    Except.ok ⟨rows, cols, (s.data.drop (start.1 * s.cols + start.2)).take (rows * cols)⟩
  else
    Except.error "reslice out of bounds"

/-- `BaseNeuralNet::get_non_bias_weights`: the layer view with its first
(bias) row stripped, via `reslice([1, 0], rows - 1, cols)`. -/
def get_non_bias_weights (net : BaseNeuralNet) (weights : List Rat) (idx : Nat) :
    Except String MatrixSlice := do
  let layer_weights ← get_layer_weights net weights idx
  layer_weights.reslice (1, 0) (layer_weights.rows - 1) layer_weights.cols

/-- The loop of `BaseNeuralNet::forward_prop` over `layers.iter().skip(1)`:
each iteration takes the parameter view at the current `index`, applies
the layer, and only then advances `index` by the layer's parameter
count.  (As in the source, the entry value of `index` is the one left
over from the handling of layer 0.) -/
def forwardLoop (w : List Rat) : List NetLayer → Nat → Mat → Mat
  | [], _, outputs => outputs
  | layer :: rest, index, outputs =>
      forwardLoop w rest (index + layer.num_params)
        (layer.forward outputs (sliceAt w index layer.param_shape))

/-- `BaseNeuralNet::forward_prop`: inference-only forward propagation
using the network's stored weights.  Mirrors the source exactly: with no
layers the input is returned unchanged; otherwise layer 0 is applied
with the view at offset 0, and the remaining layers are processed by the
loop with `index` still `0` (the source never adds layer 0's parameter
count to `index` before entering the loop). -/
def forward_prop (net : BaseNeuralNet) (inputs : Mat) : Mat :=
  match net.layers with
  | [] => inputs
  | l0 :: rest =>
      forwardLoop net.weights rest 0
        (l0.forward inputs (sliceAt net.weights 0 l0.param_shape))

/-- `NeuralNet::predict` delegates to `forward_prop` of the base net. -/
def predict (net : BaseNeuralNet) (inputs : Mat) : Mat :=
  forward_prop net inputs

/-- The forward pass of `compute_grad` with trace retention: starting
from the pushed input, each layer is applied with the view at the
running `index`, which advances by the layer's parameter count after
each application.  Returns the activation trace
(`activations[0]` = input, `activations[i+1]` = output of layer `i`). -/
def forwardAcc (w : List Rat) : List NetLayer → Nat → Mat → List Mat
  | [], _, a => [a]
  | layer :: rest, index, a =>
      a :: forwardAcc w rest (index + layer.num_params)
        (layer.forward a (sliceAt w index layer.param_shape))

/-- The backward loop of `compute_grad` over
`layers.iter().enumerate().rev()`.  For each enumerated layer `(i, layer)`
the running `index` is first decreased by the layer's parameter count,
the layer's view is taken there, `back_params` and `back_input` are both
applied to the current (pre-update) `out_grad`, the activation
`activations[i]` and that view, the parameter-gradient data is recorded
as a write at offset `index`, and the loop continues with the new
`out_grad`.  Returns the list of gradient-buffer writes (offset, data)
in execution order, together with the final `out_grad`. -/
def backLoop (w : List Rat) (actF : Nat → Mat) :
    List (Nat × NetLayer) → Mat → Nat → List (Nat × List Rat) × Mat
  | [], g, _ => ([], g)
  | (i, layer) :: rest, g, index =>
      let index' := index - layer.num_params
      let slice := sliceAt w index' layer.param_shape
      let grad_params := layer.back_params g (actF i) slice
      let out_grad := layer.back_input g (actF i) slice
      let r := backLoop w actF rest out_grad index'
      ((index', grad_params.data) :: r.1, r.2)

/-- One write of the backward pass into the gradient buffer:
`gradients[start..start + vals.len()].copy_from_slice(vals)`.  The
buffer is a list of `Option Rat`, `none` marking a still-uninitialized
element (the source allocates the buffer with `set_len` and no
initialization).  `copy_from_slice` requires the two ranges to have
equal length (it panics otherwise), which holds whenever the layer's
`back_params` output has `num_params` entries — the shape contract the
theorems assume. -/
def writeSlice (buf : List (Option Rat)) (start : Nat) (vals : List Rat) :
    List (Option Rat) :=
  buf.take start ++ vals.map some ++ buf.drop (start + vals.length)

/-- The sequence of gradient-buffer writes performed by the backward
pass of `BaseNeuralNet::compute_grad`: the activation trace is built by
the forward pass, the seed gradient is `criterion.cost_grad` of the
final output and the targets, and the backward loop starts with `index`
equal to the total parameter count (the value `index` holds after the
forward loop). -/
def gradWrites (net : BaseNeuralNet) (weights : List Rat) (inputs targets : Mat) :
    List (Nat × List Rat) :=
  let acts := forwardAcc weights net.layers 0 inputs
  let output := acts.getLastD inputs
  let out_grad := net.criterion.cost_gradFn output targets
  (backLoop weights (fun i => acts.getD i inputs) net.layers.enum.reverse
    out_grad (totalParams net.layers)).1

/-- `BaseNeuralNet::compute_grad`: the training path.  Runs the forward
pass with trace retention, seeds the backward pass with the cost
gradient, applies the backward writes to the gradient buffer (allocated
uninitialized with the same length as `weights`), and returns the cost
of the final output together with the gradient buffer.  The source
performs no validation of `weights.len()`. -/
def compute_grad (net : BaseNeuralNet) (weights : List Rat) (inputs targets : Mat) :
    Rat × List (Option Rat) :=
  let acts := forwardAcc weights net.layers 0 inputs
  let output := acts.getLastD inputs
  let gradients := (gradWrites net weights inputs targets).foldl
    (fun b e => writeSlice b e.1 e.2) (List.replicate weights.length none)
  (net.criterion.costFn output targets, gradients)

/-- `BaseNeuralNet::new`: the empty network. -/
def BaseNeuralNet.new (criterion : Criterion) : BaseNeuralNet :=
  ⟨[], [], criterion⟩

/-- `BaseNeuralNet::add_layer`: appends the layer's default parameters
to the weight vector and the layer to the stack. -/
def BaseNeuralNet.add_layer (net : BaseNeuralNet) (layer : NetLayer) : BaseNeuralNet :=
  { net with
    weights := net.weights ++ layer.default_params
    layers := net.layers ++ [layer] }

/-- An activation function with its derivative
(`learning::toolkit::activ_fn::ActivationFunc`, external to `nnet.rs`). -/
structure ActivationFunc where
  func : Rat → Rat
  func_grad : Rat → Rat

/-- Entry `(i, j)` of a row-major matrix (0 outside the stored range). -/
def Mat.entry (m : Mat) (i j : Nat) : Rat :=
  m.data.getD (i * m.cols + j) 0

/-- Row-major matrix product. -/
def matMul (a b : Mat) : Mat :=
  ⟨a.rows, b.cols,
    ((List.range a.rows).map (fun i =>
      (List.range b.cols).map (fun j =>
        ((List.range a.cols).map (fun k => a.entry i k * b.entry k j)).sum))).flatten⟩

/-- The matrix with a column of ones prepended (the bias input). -/
def addOnesCol (m : Mat) : Mat :=
  ⟨m.rows, m.cols + 1,
    ((List.range m.rows).map (fun i =>
      1 :: (List.range m.cols).map (fun j => m.entry i j))).flatten⟩

/-- Row-major transpose. -/
def Mat.transpose (m : Mat) : Mat :=
  ⟨m.cols, m.rows,
    ((List.range m.cols).map (fun j =>
      (List.range m.rows).map (fun i => m.entry i j))).flatten⟩

/-- The matrix with its first row removed. -/
def stripFirstRow (m : Mat) : Mat :=
  ⟨m.rows - 1, m.cols, m.data.drop m.cols⟩

/-- A view's contents as an owned matrix. -/
def MatrixSlice.toMat (s : MatrixSlice) : Mat :=
  ⟨s.rows, s.cols, s.data⟩

/-- Modelled from the spec: `net_layer::Linear::with_bias(fin, fout)`
(the concrete layer implementations are out of scope in `src/`): a
fully-connected layer whose bias is encoded as an extra input row of the
parameter matrix, so the parameter shape is `(fin + 1, fout)` and the
parameter count `(fin + 1) * fout`.  The forward transform multiplies
the one-augmented input by the parameter view; the backward transforms
are the corresponding transposed products, the input gradient using only
the non-bias rows.  Default parameters are randomly initialized in the
source; only their count is contractual, so the model uses zeros. -/
def Linear.with_bias (fin fout : Nat) : NetLayer :=
  { num_params := (fin + 1) * fout
    param_shape := (fin + 1, fout)
    default_params := List.replicate ((fin + 1) * fout) 0
    forward := fun m s => matMul (addOnesCol m) s.toMat
    back_params := fun g a _ => matMul (addOnesCol a).transpose g
    back_input := fun g _ s => matMul g (stripFirstRow s.toMat).transpose }

/-- Modelled from the spec: an activation function used as a network
layer (`impl NetLayer for` the activation types, out of scope in
`src/`): zero parameters, element-wise application forward, no parameter
gradient, and an input gradient obtained by scaling the output gradient
with the activation derivative at the input. -/
def activLayer (f : ActivationFunc) : NetLayer :=
  { num_params := 0
    param_shape := (0, 0)
    default_params := []
    forward := fun m _ => ⟨m.rows, m.cols, m.data.map f.func⟩
    back_params := fun _ _ _ => ⟨0, 0, []⟩
    back_input := fun g a _ =>
      ⟨g.rows, g.cols, (g.data.zip (a.data.map f.func_grad)).map (fun p => p.1 * p.2)⟩ }

/-- The adjacent pairs of a list: `layer_sizes.windows(2)`. -/
def windows2 : List Nat → List (Nat × Nat)
  | a :: b :: rest => (a, b) :: windows2 (b :: rest)
  | _ => []

/-- `BaseNeuralNet::mlp`: starting from the empty network, for every
adjacent pair of layer sizes adds a `Linear::with_bias` layer followed
by the activation function as a layer. -/
def BaseNeuralNet.mlp (layer_sizes : List Nat) (criterion : Criterion)
    (activ_fn : ActivationFunc) : BaseNeuralNet :=
  (windows2 layer_sizes).foldl
    (fun net shape =>
      (net.add_layer (Linear.with_bias shape.1 shape.2)).add_layer (activLayer activ_fn))
    (BaseNeuralNet.new criterion)

/-- `Except.isOk` as used in the statements below. -/
def exceptOk {ε α : Type} : Except ε α → Bool
  | Except.ok _ => true
  | Except.error _ => false

/-! ### Concrete instances used by witnesses and counterexamples -/

/-- A minimal concrete layer for counterexamples: one parameter of shape
`(1, 1)`; forward scales the input by the parameter, `back_params` is
the dot product of output gradient and input, `back_input` scales the
output gradient by the parameter.  (A 1×1 `Linear` layer without bias.) -/
def scaleLayer : NetLayer :=
  { num_params := 1
    param_shape := (1, 1)
    default_params := [1]
    forward := fun m s => ⟨m.rows, m.cols, m.data.map (fun x => x * s.data.getD 0 0)⟩
    back_params := fun g a _ =>
      ⟨1, 1, [((g.data.zip a.data).map (fun p => p.1 * p.2)).sum]⟩
    back_input := fun g _ s => ⟨g.rows, g.cols, g.data.map (fun x => x * s.data.getD 0 0)⟩ }

/-- A concrete criterion: identity activation, sum-of-squares cost with
its gradient, no regularization. -/
def demoCrit : Criterion :=
  { act := fun x => x
    act_grad := fun _ => 1
    costFn := fun o t => ((o.data.zip t.data).map (fun p => (p.1 - p.2) * (p.1 - p.2))).sum
    cost_gradFn := fun o t => ⟨o.rows, o.cols, (o.data.zip t.data).map (fun p => 2 * (p.1 - p.2))⟩
    regularization := Regularization.none }

/-- A two-layer network of scale layers with weights `[2, 3]`. -/
def demoNet : BaseNeuralNet :=
  ⟨[scaleLayer, scaleLayer], [2, 3], demoCrit⟩

/-- A one-layer network of one scale layer (total parameter count 1). -/
def demoNet1 : BaseNeuralNet :=
  ⟨[scaleLayer], [2], demoCrit⟩

/-- The 1×1 input `[[1]]`. -/
def mOne : Mat := ⟨1, 1, [1]⟩

/-- The 1×1 input `[[3]]`. -/
def mThree : Mat := ⟨1, 1, [3]⟩

/-- The 1×1 target `[[0]]`. -/
def mZero : Mat := ⟨1, 1, [0]⟩

/-- A concrete identity-like activation function. -/
def demoAct : ActivationFunc :=
  ⟨fun x => x, fun _ => 1⟩

/-- `demoCrit` with L2 regularization instead of none — identical
activation and cost functions, different regularization policy. -/
def demoCritL2 : Criterion :=
  { demoCrit with regularization := Regularization.l2 2 }

/-- A one-layer network whose single layer (an activation layer) has a
zero-row parameter shape and no parameters. -/
def demoNet0 : BaseNeuralNet :=
  ⟨[activLayer demoAct], [], demoCrit⟩

/-- The expected (offset, extent) signature of the per-layer parameter
slices of a stack, in layer order, starting at `off`: layer `i` owns the
range beginning at `off + Σ param_count(layers[0..i])` of extent its own
parameter count. -/
def sigList (off : Nat) : List NetLayer → List (Nat × Nat)
  | [] => []
  | l :: ls => (off, l.num_params) :: sigList (off + l.num_params) ls

/-- The shape contract a layer implementation must satisfy (§3/§7 of the
design: a layer's declared parameter shape must agree with its parameter
count, and `back_params` must produce a parameter-shaped gradient — the
Rust engine's `copy_from_slice` panics otherwise). -/
def LayerContract (l : NetLayer) : Prop :=
  l.param_shape.1 * l.param_shape.2 = l.num_params ∧
  ∀ g a s, (l.back_params g a s).data.length = l.num_params

/-- A throwaway layer, used only as the default value of `List.getD`. -/
instance : Inhabited NetLayer :=
  ⟨⟨0, (0, 0), [], fun m _ => m, fun g _ _ => g, fun g _ _ => g⟩⟩

/-! ### Lemmas about parameter-count bookkeeping -/

@[simp]
theorem totalParams_nil : totalParams [] = 0 := rfl

@[simp]
theorem totalParams_cons (l : NetLayer) (ls : List NetLayer) :
    totalParams (l :: ls) = l.num_params + totalParams ls := by
  simp [totalParams]

theorem totalParams_append (a b : List NetLayer) :
    totalParams (a ++ b) = totalParams a + totalParams b := by
  simp [totalParams]

theorem sigList_append (off : Nat) (a b : List NetLayer) :
    sigList off (a ++ b) = sigList off a ++ sigList (off + totalParams a) b := by
  induction a generalizing off with
  | nil => simp [sigList]
  | cons x a ih =>
      simp only [List.cons_append, sigList, totalParams_cons, List.append_eq]
      rw [ih (off + x.num_params), Nat.add_assoc]

theorem mem_sigList_bound {p : Nat × Nat} :
    ∀ {off : Nat} {ls : List NetLayer}, p ∈ sigList off ls →
      p.1 + p.2 ≤ off + totalParams ls := by
  intro off ls
  induction ls generalizing off with
  | nil => intro h; simp [sigList] at h
  | cons l ls ih =>
      intro h
      rcases List.mem_cons.mp h with h | h
      · subst h; simp only [totalParams_cons]; omega
      · have := ih h
        simp only [totalParams_cons]
        omega

theorem sigList_ranges (off : Nat) (ls : List NetLayer) :
    ((sigList off ls).map (fun p => List.range' p.1 p.2)).flatten =
      List.range' off (totalParams ls) := by
  induction ls generalizing off with
  | nil => simp [sigList]
  | cons l ls ih =>
      simp only [sigList, List.map_cons, List.flatten_cons, ih, totalParams_cons]
      have h := List.range'_append off l.num_params (totalParams ls) 1
      simp only [Nat.one_mul] at h
      rw [h, Nat.add_comm]

theorem sigList_eq_offsets (off : Nat) (ls : List NetLayer) :
    sigList off ls = (List.range ls.length).map
      (fun k => (off + paramOffset ls k, (ls.getD k default).num_params)) := by
  induction ls generalizing off with
  | nil => simp [sigList]
  | cons l ls ih =>
      simp only [sigList, List.length_cons, List.range_succ_eq_map, List.map_cons,
        List.map_map, ih, paramOffset, List.take_zero, totalParams_nil, Nat.add_zero,
        List.getD_cons_zero]
      congr 1
      apply List.map_congr_left
      intro k _
      simp only [Function.comp_apply, Nat.succ_eq_add_one, List.getD_cons_succ,
        List.take_succ_cons, totalParams_cons, Prod.mk.injEq]
      exact ⟨by omega, trivial⟩

/-! ### Lemmas about the backward pass and the gradient buffer -/

theorem backLoop_sig (w : List Rat) (actF : Nat → Mat) :
    ∀ ls : List NetLayer,
      (∀ l ∈ ls, ∀ g a s, (l.back_params g a s).data.length = l.num_params) →
      ∀ g : Mat,
        ((backLoop w actF ls.enum.reverse g (totalParams ls)).1).map
            (fun e => (e.1, e.2.length)) =
          (sigList 0 ls).reverse := by
  intro ls
  induction ls using List.reverseRecOn with
  | nil => intro _ g; simp [backLoop, sigList, List.enum]
  | append_singleton ls l ih =>
      intro hL g
      have henum : (ls ++ [l]).enum.reverse = (ls.length, l) :: ls.enum.reverse := by
        simp [List.enum_append]
      have htot : totalParams (ls ++ [l]) = totalParams ls + l.num_params := by
        simp [totalParams_append, totalParams]
      rw [henum, htot]
      simp only [backLoop, Nat.add_sub_cancel, List.map_cons]
      have hsig : sigList 0 (ls ++ [l]) =
          sigList 0 ls ++ [(totalParams ls, l.num_params)] := by
        rw [sigList_append]
        simp [sigList]
      rw [hsig, List.reverse_append]
      have hlen : ∀ g a s, (l.back_params g a s).data.length = l.num_params :=
        hL l (List.mem_append_right ls (List.mem_singleton.mpr rfl))
      have hrest : ∀ l' ∈ ls, ∀ g a s,
          (l'.back_params g a s).data.length = l'.num_params :=
        fun l' h => hL l' (List.mem_append_left [l] h)
      simp only [hlen, List.reverse_cons, List.reverse_nil, List.nil_append,
        List.singleton_append, List.cons.injEq, Prod.mk.injEq]
      exact ⟨by simp, ih hrest _⟩

theorem gradWrites_sig (net : BaseNeuralNet) (w : List Rat) (i t : Mat)
    (hL : ∀ l ∈ net.layers, LayerContract l) :
    (gradWrites net w i t).map (fun e => (e.1, e.2.length)) =
      (sigList 0 net.layers).reverse := by
  unfold gradWrites
  exact backLoop_sig w _ net.layers (fun l h => (hL l h).2) _

theorem gradWrites_bound (net : BaseNeuralNet) (w : List Rat) (i t : Mat)
    (hL : ∀ l ∈ net.layers, LayerContract l) :
    ∀ e ∈ gradWrites net w i t, e.1 + e.2.length ≤ totalParams net.layers := by
  intro e he
  have hmem : (e.1, e.2.length) ∈
      (gradWrites net w i t).map (fun e => (e.1, e.2.length)) :=
    List.mem_map_of_mem _ he
  rw [gradWrites_sig net w i t hL] at hmem
  have := mem_sigList_bound (List.mem_reverse.mp hmem)
  simpa using this

theorem writeSlice_length {buf : List (Option Rat)} {s : Nat} {v : List Rat}
    (h : s + v.length ≤ buf.length) :
    (writeSlice buf s v).length = buf.length := by
  simp only [writeSlice, List.length_append, List.length_take, List.length_map,
    List.length_drop]
  omega

theorem writeSlice_frame {buf1 buf2 : List (Option Rat)} {s : Nat} {v : List Rat}
    (h : s + v.length ≤ buf1.length) :
    writeSlice (buf1 ++ buf2) s v = writeSlice buf1 s v ++ buf2 := by
  unfold writeSlice
  rw [List.take_append_of_le_length (by omega), List.drop_append_of_le_length h]
  simp [List.append_assoc]

theorem foldl_writeSlice_length :
    ∀ (evs : List (Nat × List Rat)) (buf : List (Option Rat)),
      (∀ e ∈ evs, e.1 + e.2.length ≤ buf.length) →
      (evs.foldl (fun b e => writeSlice b e.1 e.2) buf).length = buf.length := by
  intro evs
  induction evs with
  | nil => intro buf _; rfl
  | cons e evs ih =>
      intro buf h
      have he : e.1 + e.2.length ≤ buf.length := h e (List.mem_cons_self e evs)
      have hlen : (writeSlice buf e.1 e.2).length = buf.length := writeSlice_length he
      simp only [List.foldl_cons]
      rw [ih (writeSlice buf e.1 e.2) (fun e' h' => by
        rw [hlen]; exact h e' (List.mem_cons_of_mem e h')), hlen]

theorem foldl_writeSlice_frame :
    ∀ (evs : List (Nat × List Rat)) (buf1 buf2 : List (Option Rat)),
      (∀ e ∈ evs, e.1 + e.2.length ≤ buf1.length) →
      evs.foldl (fun b e => writeSlice b e.1 e.2) (buf1 ++ buf2) =
        evs.foldl (fun b e => writeSlice b e.1 e.2) buf1 ++ buf2 := by
  intro evs
  induction evs with
  | nil => intro buf1 buf2 _; rfl
  | cons e evs ih =>
      intro buf1 buf2 h
      have he : e.1 + e.2.length ≤ buf1.length := h e (List.mem_cons_self e evs)
      simp only [List.foldl_cons]
      rw [writeSlice_frame he]
      exact ih (writeSlice buf1 e.1 e.2) buf2 (fun e' h' => by
        rw [writeSlice_length he]; exact h e' (List.mem_cons_of_mem e h'))

/-- The demonstration layer satisfies the layer shape contract. -/
theorem scaleLayer_contract : LayerContract scaleLayer :=
  ⟨rfl, fun _ _ _ => rfl⟩

/-- Every layer of `demoNet` satisfies the layer shape contract. -/
theorem demoNet_contract : ∀ l ∈ demoNet.layers, LayerContract l := by
  intro l hl
  fin_cases hl
  · exact scaleLayer_contract
  · exact scaleLayer_contract

/-- Every layer of `demoNet1` satisfies the layer shape contract. -/
theorem demoNet1_contract : ∀ l ∈ demoNet1.layers, LayerContract l := by
  intro l hl
  fin_cases hl
  exact scaleLayer_contract

/-! ### Claims -/

/-- Claim C1: false on the code — `forward_prop` does not read layer 1's
parameters at offset `Σ param_count(layers[0..1])`.  On the two-layer
network `demoNet` (weights `[2, 3]`, each layer owning one parameter),
layer 1's parameter slice per the claimed addressing starts at offset 1
and contains `[3]`; applying layer 1 to layer 0's output `[[2]]` with
that slice yields `[[6]]`.  The code instead leaves `index` at 0 after
layer 0 and produces `[[4]]` (layer 1 re-reads layer 0's parameter). -/
theorem forward_prop_offset_bug :
    forward_prop demoNet mOne = ⟨1, 1, [4]⟩ ∧
    sliceAt demoNet.weights (paramOffset demoNet.layers 1)
        ((demoNet.layers.getD 1 default).param_shape) = ⟨1, 1, [3]⟩ ∧
    (demoNet.layers.getD 1 default).forward ⟨1, 1, [2]⟩
        (sliceAt demoNet.weights (paramOffset demoNet.layers 1)
          ((demoNet.layers.getD 1 default).param_shape)) = ⟨1, 1, [6]⟩ ∧
    forward_prop demoNet mOne ≠ ⟨1, 1, [6]⟩ := by
  refine ⟨?_, ?_, ?_, ?_⟩
  · norm_num [forward_prop, forwardLoop, sliceAt, demoNet, scaleLayer, mOne]
  · norm_num [sliceAt, paramOffset, totalParams, demoNet, scaleLayer]
  · norm_num [sliceAt, paramOffset, totalParams, demoNet, scaleLayer]
  · norm_num [forward_prop, forwardLoop, sliceAt, demoNet, scaleLayer, mOne]

/-- Claim C2: with a weight buffer of the correct total length and
layers satisfying the shape contract, `compute_grad` returns a gradient
buffer of the same length as the weights; the backward pass performs,
in reverse layer order, exactly one write per layer, at layer `k`'s
slice offset `Σ param_count(layers[0..k])` with extent
`param_count(layers[k])`; and the written ranges cover every index of
the buffer exactly once. -/
theorem compute_grad_writes_partition (net : BaseNeuralNet) (w : List Rat) (i t : Mat)
    (hw : w.length = totalParams net.layers)
    (hL : ∀ l ∈ net.layers, LayerContract l) :
    (compute_grad net w i t).2.length = w.length ∧
    (gradWrites net w i t).map (fun e => (e.1, e.2.length)) =
      ((List.range net.layers.length).map
        (fun k => (paramOffset net.layers k,
          (net.layers.getD k default).num_params))).reverse ∧
    (((gradWrites net w i t).map (fun e => (e.1, e.2.length))).reverse.map
        (fun p => List.range' p.1 p.2)).flatten = List.range' 0 w.length := by
  have hsig := gradWrites_sig net w i t hL
  have hb := gradWrites_bound net w i t hL
  refine ⟨?_, ?_, ?_⟩
  · simp only [compute_grad]
    rw [foldl_writeSlice_length _ _ (fun e he => by
      simp only [List.length_replicate]
      calc e.1 + e.2.length ≤ totalParams net.layers := hb e he
        _ = w.length := hw.symm)]
    exact List.length_replicate _ _
  · rw [hsig, sigList_eq_offsets]
    simp
  · rw [hsig, List.reverse_reverse, sigList_ranges, hw]

/-- Witness for C2 at the concrete network `demoNet` with weights
`[2, 3]`. -/
theorem compute_grad_writes_partition_witness :
    (compute_grad demoNet [2, 3] mOne mZero).2.length = 2 :=
  (compute_grad_writes_partition demoNet [2, 3] mOne mZero (by decide)
    demoNet_contract).1

/-- Claim C3: false on the code — the cost returned by `compute_grad`
differs from the cost of re-running `forward_prop` on the same weights
and applying the criterion, because `forward_prop` mis-addresses the
parameter slices of layers after the first.  On `demoNet` (weights
`[2, 3]`, input `[[1]]`, target `[[0]]`): `compute_grad`'s internal
forward pass produces `[[6]]` and cost 36, while `forward_prop` produces
`[[4]]`, whose criterion cost is 16. -/
theorem compute_grad_cost_path_mismatch :
    (compute_grad demoNet demoNet.weights mOne mZero).1 = 36 ∧
    demoNet.criterion.costFn (forward_prop demoNet mOne) mZero = 16 ∧
    (compute_grad demoNet demoNet.weights mOne mZero).1 ≠
      demoNet.criterion.costFn (forward_prop demoNet mOne) mZero := by
  refine ⟨?_, ?_, ?_⟩
  · norm_num [compute_grad, gradWrites, forwardAcc, backLoop, writeSlice, sliceAt,
      totalParams, demoNet, demoCrit, scaleLayer, mOne, mZero, List.enum]
  · norm_num [forward_prop, forwardLoop, sliceAt, demoNet, demoCrit, scaleLayer,
      mOne, mZero]
  · norm_num [compute_grad, gradWrites, forwardAcc, backLoop, writeSlice, sliceAt,
      forward_prop, forwardLoop, totalParams, demoNet, demoCrit, scaleLayer,
      mOne, mZero, List.enum]

/-- Counterexample for claim C4: a `compute_grad` call whose weight
vector length (2) differs from the total parameter count (1) does not
fail; it proceeds and returns a computed cost together with a gradient
buffer whose element beyond the layers' parameters is simply left
unwritten. -/
theorem compute_grad_no_check_counterexample :
    ([2, 9] : List Rat).length ≠ totalParams demoNet1.layers ∧
    compute_grad demoNet1 [2, 9] mThree mZero = (36, [some 36, none]) := by
  constructor
  · decide
  · norm_num [compute_grad, gradWrites, forwardAcc, backLoop, writeSlice, sliceAt,
      totalParams, demoNet1, demoCrit, scaleLayer, mThree, mZero, List.enum]

/-- Claim C4 as amended: `compute_grad` performs no validation of
the supplied parameter vector's length.  Whenever the vector is at least
as long as the total parameter count (in particular, strictly longer —
the mismatch case that involves no out-of-bounds read), the call
proceeds: it returns the cost of the forward output, and a gradient
buffer of length `weights.len()` whose portion beyond the total
parameter count is left entirely unwritten. -/
theorem compute_grad_unchecked_proceeds (net : BaseNeuralNet) (w : List Rat) (i t : Mat)
    (hw : totalParams net.layers ≤ w.length)
    (hL : ∀ l ∈ net.layers, LayerContract l) :
    (compute_grad net w i t).1 =
      net.criterion.costFn ((forwardAcc w net.layers 0 i).getLastD i) t ∧
    (compute_grad net w i t).2 =
      (gradWrites net w i t).foldl (fun b e => writeSlice b e.1 e.2)
        (List.replicate (totalParams net.layers) none) ++
      List.replicate (w.length - totalParams net.layers) none ∧
    (compute_grad net w i t).2.length = w.length := by
  have hb := gradWrites_bound net w i t hL
  refine ⟨by simp [compute_grad], ?_, ?_⟩
  · simp only [compute_grad]
    have hsplit : List.replicate w.length (none : Option Rat) =
        List.replicate (totalParams net.layers) none ++
        List.replicate (w.length - totalParams net.layers) none := by
      rw [← List.replicate_add]
      congr 1
      omega
    rw [hsplit]
    exact foldl_writeSlice_frame _ _ _ (fun e he => by
      simp only [List.length_replicate]
      exact hb e he)
  · simp only [compute_grad]
    rw [foldl_writeSlice_length _ _ (fun e he => by
      simp only [List.length_replicate]
      calc e.1 + e.2.length ≤ totalParams net.layers := hb e he
        _ ≤ w.length := hw)]
    exact List.length_replicate _ _

/-- Witness for the amended C4 at `demoNet1` with the over-long weight
vector `[2, 9]`. -/
theorem compute_grad_unchecked_proceeds_witness :
    (compute_grad demoNet1 [2, 9] mThree mZero).2.length = 2 :=
  (compute_grad_unchecked_proceeds demoNet1 [2, 9] mThree mZero (by decide)
    demoNet1_contract).2.2

/-- Claim C6: in one step of the backward loop, `back_params` and
`back_input` are both applied to the pre-update output gradient `g`, the
same input activation `actF i`, and the same parameter view (the slice
at the decremented index); the write records `back_params`' result and
the loop continues with `back_input`'s result — neither computation
observes the other's output. -/
theorem back_step_pre_update (w : List Rat) (actF : Nat → Mat) (i : Nat) (l : NetLayer)
    (rest : List (Nat × NetLayer)) (g : Mat) (index : Nat) :
    backLoop w actF ((i, l) :: rest) g index =
      ((index - l.num_params,
          (l.back_params g (actF i)
            (sliceAt w (index - l.num_params) l.param_shape)).data) ::
        (backLoop w actF rest
          (l.back_input g (actF i) (sliceAt w (index - l.num_params) l.param_shape))
          (index - l.num_params)).1,
       (backLoop w actF rest
          (l.back_input g (actF i) (sliceAt w (index - l.num_params) l.param_shape))
          (index - l.num_params)).2) := rfl

/-- Claim C8: on an empty layer stack, `forward_prop` is the identity
(for any stored weights), and `compute_grad` returns the criterion cost
of the inputs against the targets together with the empty gradient
vector. -/
theorem empty_stack_identity (net : BaseNeuralNet) (h : net.layers = [])
    (x i t : Mat) :
    forward_prop net x = x ∧
    compute_grad net [] i t = (net.criterion.costFn i t, []) := by
  obtain ⟨ls, wts, c⟩ := net
  simp only at h
  subst h
  constructor
  · rfl
  · rfl

/-- Witness for C8 on a freshly constructed empty network. -/
theorem empty_stack_identity_witness :
    forward_prop (BaseNeuralNet.new demoCrit) mOne = mOne ∧
    compute_grad (BaseNeuralNet.new demoCrit) [] mOne mZero =
      ((BaseNeuralNet.new demoCrit).criterion.costFn mOne mZero, []) :=
  empty_stack_identity (BaseNeuralNet.new demoCrit) rfl mOne mOne mZero

/-! ### Lemmas about slicing, layer offsets and the MLP constructor -/

theorem paramOffset_add_le (ls : List NetLayer) (idx : Nat) (h : idx < ls.length) :
    paramOffset ls idx + (ls.get ⟨idx, h⟩).num_params ≤ totalParams ls := by
  induction ls generalizing idx with
  | nil => exact absurd h (by simp)
  | cons l ls ih =>
      cases idx with
      | zero =>
          simp only [paramOffset, List.take_zero, totalParams_nil, List.get,
            totalParams_cons]
          omega
      | succ k =>
          have hk : k < ls.length := by simpa using h
          have := ih k hk
          simp only [paramOffset, List.take_succ_cons, totalParams_cons, List.get]
          simp only [paramOffset] at this
          omega

theorem sliceAt_data_length (w : List Rat) (start : Nat) (shape : Nat × Nat)
    (h : start + shape.1 * shape.2 ≤ w.length) :
    (sliceAt w start shape).data.length = shape.1 * shape.2 := by
  simp only [sliceAt, List.length_take, List.length_drop]
  omega

theorem mlp_foldl_layers (f : ActivationFunc) :
    ∀ (pairs : List (Nat × Nat)) (net : BaseNeuralNet),
      (pairs.foldl
        (fun n shape =>
          (n.add_layer (Linear.with_bias shape.1 shape.2)).add_layer (activLayer f))
        net).layers =
      net.layers ++
        (pairs.map (fun p => [Linear.with_bias p.1 p.2, activLayer f])).flatten := by
  intro pairs
  induction pairs with
  | nil => intro net; simp
  | cons p ps ih =>
      intro net
      rw [List.foldl_cons, ih]
      simp [BaseNeuralNet.add_layer, List.flatten_cons, List.append_assoc]

theorem alt_flatten_length (f : ActivationFunc) :
    ∀ pairs : List (Nat × Nat),
      ((pairs.map (fun p => [Linear.with_bias p.1 p.2, activLayer f])).flatten).length =
        2 * pairs.length := by
  intro pairs
  induction pairs with
  | nil => rfl
  | cons p ps ih =>
      simp only [List.map_cons, List.flatten_cons, List.length_append, ih,
        List.length_cons]
      simp only [List.length_cons, List.length_nil]
      omega

theorem alt_flatten_getD (f : ActivationFunc) :
    ∀ (pairs : List (Nat × Nat)) (k : Nat), k < pairs.length →
      ((pairs.map (fun p => [Linear.with_bias p.1 p.2, activLayer f])).flatten).getD
          (2 * k) default =
        Linear.with_bias (pairs.getD k (0, 0)).1 (pairs.getD k (0, 0)).2 ∧
      ((pairs.map (fun p => [Linear.with_bias p.1 p.2, activLayer f])).flatten).getD
          (2 * k + 1) default = activLayer f := by
  intro pairs
  induction pairs with
  | nil => intro k h; exact absurd h (by simp)
  | cons p ps ih =>
      intro k h
      cases k with
      | zero => exact ⟨rfl, rfl⟩
      | succ k' =>
          have h' : k' < ps.length := by
            simp only [List.length_cons] at h
            omega
          have hih := ih k' h'
          have h2 : 2 * (k' + 1) = (2 * k' + 1) + 1 := by omega
          have h3 : 2 * (k' + 1) + 1 = ((2 * k' + 1) + 1) + 1 := by omega
          simp only [List.map_cons, List.flatten_cons, List.cons_append,
            List.singleton_append, h2, h3, List.getD_cons_succ, List.getD_cons_zero]
          exact ⟨hih.1, hih.2⟩

theorem windows2_length :
    ∀ sizes : List Nat, (windows2 sizes).length = sizes.length - 1 := by
  intro sizes
  induction sizes with
  | nil => rfl
  | cons a rest ih =>
      cases rest with
      | nil => rfl
      | cons b r =>
          simp only [windows2, List.length_cons]
          simp only [List.length_cons] at ih
          omega

theorem windows2_getD :
    ∀ (sizes : List Nat) (k : Nat), k < sizes.length - 1 →
      (windows2 sizes).getD k (0, 0) = (sizes.getD k 0, sizes.getD (k + 1) 0) := by
  intro sizes
  induction sizes with
  | nil => intro k h; exact absurd h (by simp)
  | cons a rest ih =>
      intro k h
      cases rest with
      | nil => exact absurd h (by simp)
      | cons b r =>
          cases k with
          | zero => rfl
          | succ k' =>
              have h' : k' < (b :: r).length - 1 := by
                simp only [List.length_cons] at h ⊢
                omega
              simpa [windows2] using ih k' h'

theorem windows2_short {sizes : List Nat} (h : sizes.length < 2) :
    windows2 sizes = [] := by
  match sizes with
  | [] => rfl
  | [_] => rfl
  | _ :: _ :: _ => exact absurd h (by simp only [List.length_cons]; omega)

/-- Claim C5: `get_layer_weights` checks that the layer index is in
range and that the weights length equals the sum of all layers'
parameter counts; a violation of either precondition is surfaced as a
hard failure instead of a returned view. -/
theorem get_layer_weights_checks (net : BaseNeuralNet) (w : List Rat) (idx : Nat)
    (h : net.layers.length ≤ idx ∨ totalParams net.layers ≠ w.length) :
    exceptOk (get_layer_weights net w idx) = false := by
  unfold get_layer_weights
  by_cases hidx : idx < net.layers.length
  · rcases h with h | h
    · omega
    · rw [dif_pos hidx, if_neg h]
      rfl
  · rw [dif_neg hidx]
    rfl

/-- Witness for C5: an out-of-range layer index and a wrong-length
weights buffer each produce a failure on `demoNet`. -/
theorem get_layer_weights_checks_witness :
    exceptOk (get_layer_weights demoNet [2, 3] 5) = false ∧
    exceptOk (get_layer_weights demoNet [2, 3, 7] 0) = false :=
  ⟨get_layer_weights_checks demoNet [2, 3] 5 (Or.inl (by decide)),
   get_layer_weights_checks demoNet [2, 3, 7] 0 (Or.inr (by decide))⟩

/-- Claim C7: the result of `compute_grad` does not depend on the
criterion's regularization policy — two criteria with the same
activation, activation-gradient, cost and cost-gradient functions but
arbitrary (different) regularizations yield identical (cost, gradient)
pairs, because the engine never consults the regularization. -/
theorem compute_grad_regularization_independent
    (layers : List NetLayer) (stored w : List Rat) (c1 c2 : Criterion) (i t : Mat)
    (hact : c1.act = c2.act) (hag : c1.act_grad = c2.act_grad)
    (hc : c1.costFn = c2.costFn) (hcg : c1.cost_gradFn = c2.cost_gradFn) :
    compute_grad ⟨layers, stored, c1⟩ w i t = compute_grad ⟨layers, stored, c2⟩ w i t := by
  simp only [compute_grad, gradWrites, hc, hcg]

/-- Witness for C7: no regularization versus L2 regularization on the
same functions produce the same `compute_grad` output, although the two
regularization policies differ. -/
theorem compute_grad_regularization_independent_witness :
    demoCrit.regularization ≠ demoCritL2.regularization ∧
    compute_grad ⟨demoNet.layers, demoNet.weights, demoCrit⟩ [2, 3] mOne mZero =
      compute_grad ⟨demoNet.layers, demoNet.weights, demoCritL2⟩ [2, 3] mOne mZero :=
  ⟨by decide,
   compute_grad_regularization_independent demoNet.layers demoNet.weights [2, 3]
     demoCrit demoCritL2 mOne mZero rfl rfl rfl rfl⟩

/-- Claim C9: under the addressing preconditions and the layer shape
contract, `get_non_bias_weights` fails on a layer whose parameter view
has zero rows, and on a view with at least one row returns the view with
its first row removed: `rows - 1` rows, the same column count, and the
data starting at row 1. -/
theorem get_non_bias_weights_spec (net : BaseNeuralNet) (w : List Rat) (idx : Nat)
    (h : idx < net.layers.length)
    (hw : totalParams net.layers = w.length)
    (hc : LayerContract (net.layers.get ⟨idx, h⟩)) :
    ((net.layers.get ⟨idx, h⟩).param_shape.1 = 0 →
      exceptOk (get_non_bias_weights net w idx) = false) ∧
    (0 < (net.layers.get ⟨idx, h⟩).param_shape.1 →
      get_non_bias_weights net w idx = Except.ok
        ⟨(net.layers.get ⟨idx, h⟩).param_shape.1 - 1,
         (net.layers.get ⟨idx, h⟩).param_shape.2,
         (sliceAt w (paramOffset net.layers idx)
            (net.layers.get ⟨idx, h⟩).param_shape).data.drop
           (net.layers.get ⟨idx, h⟩).param_shape.2⟩) := by
  have hview : get_layer_weights net w idx = Except.ok
      (sliceAt w (paramOffset net.layers idx) (net.layers.get ⟨idx, h⟩).param_shape) := by
    unfold get_layer_weights
    rw [dif_pos h, if_pos hw]
  have hlen : (sliceAt w (paramOffset net.layers idx)
      (net.layers.get ⟨idx, h⟩).param_shape).data.length =
      (net.layers.get ⟨idx, h⟩).param_shape.1 *
        (net.layers.get ⟨idx, h⟩).param_shape.2 := by
    apply sliceAt_data_length
    rw [hc.1, ← hw]
    exact paramOffset_add_le net.layers idx h
  constructor
  · intro h0
    unfold get_non_bias_weights
    rw [hview]
    simp only [Except.bind, MatrixSlice.reslice, sliceAt, h0]
    rfl
  · intro h1
    unfold get_non_bias_weights
    rw [hview]
    show MatrixSlice.reslice _ _ _ _ = _
    unfold MatrixSlice.reslice
    rw [if_pos (by constructor <;> simp only [sliceAt] <;> omega)]
    simp only [sliceAt, Nat.one_mul, Nat.add_zero]
    congr 1
    rw [List.take_of_length_le]
    rw [List.length_drop]
    simp only [sliceAt] at hlen
    rw [hlen, Nat.sub_one_mul]

/-- Witness for C9: a zero-row layer view fails, and the 1×1 view of
`demoNet`'s first layer loses its (only) bias row. -/
theorem get_non_bias_weights_spec_witness :
    exceptOk (get_non_bias_weights demoNet0 [] 0) = false ∧
    get_non_bias_weights demoNet [2, 3] 0 = Except.ok ⟨0, 1, []⟩ :=
  ⟨(get_non_bias_weights_spec demoNet0 [] 0 (by decide) (by decide)
      ⟨rfl, fun _ _ _ => rfl⟩).1 rfl,
   (get_non_bias_weights_spec demoNet [2, 3] 0 (by decide) (by decide)
      scaleLayer_contract).2 (by decide)⟩

/-- Claim C10: `mlp` over `layer_sizes` of length `n` builds the layer
list made of one `Linear::with_bias` layer followed by one
zero-parameter activation layer per adjacent pair of sizes — `2*(n-1)`
layers in total, with the weight-carrying `Linear` layers at even
indices and the activation layers (of zero parameters) at odd indices;
when `n < 2` the network has no layers at all and `predict` returns its
input unchanged. -/
theorem mlp_structure (sizes : List Nat) (c : Criterion) (f : ActivationFunc) :
    (BaseNeuralNet.mlp sizes c f).layers =
      ((windows2 sizes).map (fun p => [Linear.with_bias p.1 p.2, activLayer f])).flatten ∧
    (BaseNeuralNet.mlp sizes c f).layers.length = 2 * (sizes.length - 1) ∧
    (∀ k, k < sizes.length - 1 →
      (BaseNeuralNet.mlp sizes c f).layers.getD (2 * k) default =
        Linear.with_bias (sizes.getD k 0) (sizes.getD (k + 1) 0) ∧
      (BaseNeuralNet.mlp sizes c f).layers.getD (2 * k + 1) default = activLayer f ∧
      ((BaseNeuralNet.mlp sizes c f).layers.getD (2 * k + 1) default).num_params = 0) ∧
    (sizes.length < 2 →
      (BaseNeuralNet.mlp sizes c f).layers = [] ∧
      ∀ x, predict (BaseNeuralNet.mlp sizes c f) x = x) := by
  have hlay : (BaseNeuralNet.mlp sizes c f).layers =
      ((windows2 sizes).map (fun p => [Linear.with_bias p.1 p.2, activLayer f])).flatten := by
    unfold BaseNeuralNet.mlp
    rw [mlp_foldl_layers]
    rfl
  refine ⟨hlay, ?_, ?_, ?_⟩
  · rw [hlay, alt_flatten_length, windows2_length]
  · intro k hk
    have hkw : k < (windows2 sizes).length := by rw [windows2_length]; exact hk
    have hg := alt_flatten_getD f (windows2 sizes) k hkw
    have hp := windows2_getD sizes k hk
    refine ⟨?_, ?_, ?_⟩
    · rw [hlay, hg.1, hp]
    · rw [hlay, hg.2]
    · rw [hlay, hg.2]
      rfl
  · intro hshort
    have hnil : (BaseNeuralNet.mlp sizes c f).layers = [] := by
      rw [hlay, windows2_short hshort]
      rfl
    refine ⟨hnil, ?_⟩
    intro x
    unfold predict forward_prop
    rw [hnil]

/-- Witness for C10 at the concrete size lists `[3, 2]` and `[7]`. -/
theorem mlp_structure_witness :
    (BaseNeuralNet.mlp [3, 2] demoCrit demoAct).layers.length = 2 ∧
    (BaseNeuralNet.mlp [7] demoCrit demoAct).layers = [] ∧
    predict (BaseNeuralNet.mlp [7] demoCrit demoAct) mOne = mOne :=
  ⟨(mlp_structure [3, 2] demoCrit demoAct).2.1,
   ((mlp_structure [7] demoCrit demoAct).2.2.2 (by decide)).1,
   ((mlp_structure [7] demoCrit demoAct).2.2.2 (by decide)).2 mOne⟩

end NNet
